import Mathlib

/-!
Shallow embedding of the kyma-project/module-installer reconciliation core,
translated from the Go sources, together with theorems settling the frozen
claims about the natural-language specification.

Conventions used throughout:
* Go `(T, error)` return pairs become `Except GoErr T` when exactly one of the
  two is meaningful, and a literal pair when the code can return both.
* Machine integers that can go negative (Go `int`) are `Int`.
* External collaborators (Kubernetes API calls, OCI pulls, YAML codecs,
  file-system writes) are passed in as explicit function arguments so that the
  embedded control flow is exactly the source's control flow over their
  results.
-/

namespace ModuleInstaller

/-- Go `error` values: we only ever branch on presence and on a few
sentinel comparisons, so a string payload suffices. -/
abbrev GoErrMsg := String

/-- `v1alpha1.ManifestState` — the four declared constants
`Ready`, `Processing`, `Error`, `Deleting` (api/v1alpha1). The zero value
`""` of the underlying Go string is represented as `none` in an
`Option ManifestState` where it matters. -/
inductive ManifestState where
  | ready
  | processing
  | error
  | deleting
deriving DecidableEq, Repr

/-- `manifest.InstallResponse` — only the fields the controller branches on
or copies into conditions. `err` is `Option GoErrMsg` for Go's nilable
`error`; `clientConfig`/`overrides` stand for the already-JSON-marshalled
payloads (the marshalling itself is an external collaborator). -/
structure InstallResponse where
  ready : Bool
  err : Option GoErrMsg
  chartName : String
  clientConfig : String
  overrides : String
deriving DecidableEq, Repr

namespace Controllers

/-- The `for a := 1; a <= chartCount; a++` receive loop of
`ManifestReconciler.ResponseHandlerFunc` (part_005). The channel is modelled
as the list `stream` of responses in arrival order; running out of stream
elements corresponds to blocking forever on the channel, which in the code
only ends via `ctx.Done()` — modelled as `none` (the handler returns without
writing anything). Accumulates the `errorState` and `processing` flags and
the `responses` slice exactly as the loop body does. -/
def collectLoop : Nat → List InstallResponse → Bool → Bool → List InstallResponse →
    Option (Bool × Bool × List InstallResponse)
  | 0, _stream, errorState, processing, acc => some (errorState, processing, acc.reverse)
  | _ + 1, [], _, _, _ => none
  | n + 1, r :: rest, errorState, processing, acc =>
      collectLoop n rest (errorState || r.err.isSome)
        (processing || (r.err.isNone && !r.ready)) (r :: acc)

/-- `ManifestReconciler.setProcessedState` (part_005): computes the end state
written by `updateManifestStatus`. `deletionTimestampSet` is the negation of
`manifestObj.DeletionTimestamp.IsZero()`. -/
def setProcessedState (errorState processing deletionTimestampSet : Bool) : ManifestState :=
  if errorState then ManifestState.error
  else if !deletionTimestampSet then
    if processing then ManifestState.processing else ManifestState.ready
  else ManifestState.deleting

/-- Observable effects of one run of `ResponseHandlerFunc`. -/
structure HandlerOutcome where
  /-- the `responses` slice accumulated by the receive loop -/
  responsesRead : List InstallResponse
  /-- final value of the local `errorState` flag (after any escalation) -/
  errorSeen : Bool
  /-- final value of the local `processing` flag -/
  processing : Bool
  /-- `controllerutil.RemoveFinalizer` + `r.updateManifest` were invoked -/
  finalizerRemovalAttempted : Bool
  /-- the finalizer-removing object update succeeded -/
  finalizerRemovalPersisted : Bool
  /-- the end state passed to `updateManifestStatus`, if any write happened -/
  statusWritten : Option ManifestState
deriving DecidableEq, Repr

/-- `ManifestReconciler.ResponseHandlerFunc` (part_005).
`getLatestSucceeds` models the `r.Get` re-fetch of the Manifest (on failure
the handler logs and returns), `deletionTimestampSet` the re-fetched object's
deletion timestamp, and `finalizerUpdateSucceeds` the `r.updateManifest` call
that persists the finalizer removal. `none` = the handler returned without
any observable write (context cancelled or Get failure). -/
def ResponseHandlerFunc (chartCount : Nat) (stream : List InstallResponse)
    (getLatestSucceeds deletionTimestampSet finalizerUpdateSucceeds : Bool) :
    Option HandlerOutcome :=
  match collectLoop chartCount stream false false [] with
  | none => none
  | some (errorState, processing, responses) =>
    if !getLatestSucceeds then none
    else if !errorState && deletionTimestampSet && !processing then
      if finalizerUpdateSucceeds then
        -- finalizer successfully removed; handler returns with no status write
        some { responsesRead := responses, errorSeen := errorState, processing := processing,
               finalizerRemovalAttempted := true, finalizerRemovalPersisted := true,
               statusWritten := none }
      else
        -- finalizer removal failure - set error state
        some { responsesRead := responses, errorSeen := true, processing := processing,
               finalizerRemovalAttempted := true, finalizerRemovalPersisted := false,
               statusWritten := some (setProcessedState true processing deletionTimestampSet) }
    else
      some { responsesRead := responses, errorSeen := errorState, processing := processing,
             finalizerRemovalAttempted := false, finalizerRemovalPersisted := false,
             statusWritten := some (setProcessedState errorState processing deletionTimestampSet) }

/-- The deletion-detection step at the top of `ManifestReconciler.Reconcile`
(part_005): if the deletion timestamp is set and the status is not yet
`Deleting`, the reconciler writes `Deleting` and returns; otherwise this step
writes nothing. `state` is `.status.state`, with `none` for the zero value. -/
def reconcileDeletionCheckWrite (deletionTimestampSet : Bool)
    (state : Option ManifestState) : Option ManifestState :=
  if deletionTimestampSet && !(state = some ManifestState.deleting) then
    some ManifestState.deleting
  else
    none

/-- `ManifestWorkerPool` (workers.go): only the two size fields matter to the
pool-size helpers; Go `int` is `Int`. -/
structure ManifestWorkerPool where
  initialSize : Int
  size : Int
deriving DecidableEq, Repr

/-- `NewManifestWorkers` (workers.go). -/
def NewManifestWorkers (workersConcurrentManifests : Int) : ManifestWorkerPool :=
  { initialSize := workersConcurrentManifests, size := workersConcurrentManifests }

/-- `ManifestWorkerPool.GetWorkerPoolSize` (workers.go). -/
def GetWorkerPoolSize (mw : ManifestWorkerPool) : Int :=
  mw.size

/-- `ManifestWorkerPool.SetWorkerPoolSize` (workers.go). -/
def SetWorkerPoolSize (mw : ManifestWorkerPool) (newSize : Int) : ManifestWorkerPool :=
  if newSize > 0 then { mw with size := mw.initialSize }
  else { mw with size := newSize }

end Controllers

/-- `*rest.Config` — opaque to the controller except for identity; a concrete
carrier so that models stay executable. -/
structure RESTConfig where
  host : String
deriving DecidableEq, Repr

/-- `types.ClusterInfo` — `{Config *rest.Config, Client client.Client}`.
Both fields are nilable pointers/interfaces in Go, hence `Option`; the client
is identified by an opaque token. -/
structure ClusterInfo where
  config : Option RESTConfig
  client : Option String
deriving DecidableEq, Repr

/-- The slice of a cached manifest processor (`types.RenderSrc`) visible to
`getDestinationConfigAndClient`: its `GetClusterInfo()` result, a Go
`(types.ClusterInfo, error)` pair. -/
structure Processor where
  getClusterInfo : ClusterInfo × Option GoErrMsg
deriving DecidableEq, Repr

/-- `types.ImageSpec` — `{repo, name, ref, type}`. The `type` field is the
`RefTypeMetadata` string; `NotEmpty()` is `type ≠ ""`. The credential secret
selector is abstracted away because every claim consumes it behind the
decode/pull collaborators. -/
structure ImageSpec where
  repo : String
  name : String
  ref : String
  type : String
deriving DecidableEq, Repr

/-- `v1alpha1.InstallInfo` — one entry of `Spec.Installs`; the raw source
payload is consumed only through the decoders, so the entry carries its
`name` and an identifying tag for the raw bytes. -/
structure InstallEntry where
  name : String
  rawTag : String
deriving DecidableEq, Repr

/-- The fields of `v1alpha1.Manifest` consulted by the prepare phase. -/
structure Manifest where
  name : String
  nspace : String
  labels : List (String × String)
  remote : Bool
  installs : List InstallEntry
  configSpec : ImageSpec
deriving DecidableEq, Repr

/-- `labels.CacheKey` — per the comment on `discoverCacheKey`
(operations.go): label `operator.kyma-project.io/cache-key`. -/
def CacheKey : String := "operator.kyma-project.io/cache-key"

/-- Modelled from the spec: `util.GetResourceLabel` (pkg/util, not under
src/) — "look up the owner via the `cache-key` label (fails if absent)".
Returns the label value or an error when the label is missing. -/
def GetResourceLabel (manifestObj : Manifest) (label : String) : Except GoErrMsg String :=
  match manifestObj.labels.lookup label with
  | some value => Except.ok value
  | none => Except.error ("label " ++ label ++ " not found on resource " ++
      manifestObj.nspace ++ "/" ++ manifestObj.name)

namespace Prepare

/-- `getDestinationConfigAndClient` (internal/pkg/prepare/deploy.go).
Returns the Go `(types.ClusterInfo, error)` pair. `getProcessor` is
`processorCache.GetProcessor` keyed by
`client.ObjectKey{Name: kymaOwnerLabel, Namespace: manifestObj.Namespace}`;
`customCfgGetter` is the optional `flags.CustomRESTCfg`;
`defaultRESTConfigGetter` is `getDefaultRESTConfigGetter`'s secret-based
loader applied to (secretName, namespace). -/
def getDestinationConfigAndClient (defaultClusterInfo : ClusterInfo) (manifestObj : Manifest)
    (getProcessor : String × String → Option Processor)
    (customCfgGetter : Option (Unit → Except GoErrMsg RESTConfig))
    (defaultRESTConfigGetter : String → String → Except GoErrMsg RESTConfig) :
    ClusterInfo × Option GoErrMsg :=
  -- in single cluster mode return the default cluster info
  if !manifestObj.remote then (defaultClusterInfo, none)
  else
    match GetResourceLabel manifestObj CacheKey with
    | Except.error e => ({ config := none, client := none }, some e)
    | Except.ok kymaOwnerLabel =>
      match getProcessor (kymaOwnerLabel, manifestObj.nspace) with
      | some processor => processor.getClusterInfo
      | none =>
        let getterResult :=
          match customCfgGetter with
          | some getter => getter ()
          | none => defaultRESTConfigGetter kymaOwnerLabel manifestObj.nspace
        match getterResult with
        | Except.error e => ({ config := none, client := none }, some e)
        -- client will be set during processing of manifest
        | Except.ok restConfig => ({ config := some restConfig, client := none }, none)

/-- The nested maps produced by `strvals.ParseInto`, kept as association
lists so everything stays executable; their internal structure is irrelevant
to the claims. -/
abbrev GoMap := List (String × String)

/-- `types.ChartFlags` — `{ConfigFlags, SetFlags}`. -/
structure ChartFlags where
  configFlags : GoMap
  setFlags : GoMap
deriving DecidableEq, Repr

/-- `types.ChartInfo` — the fields written by the chart-info constructors and
`parseInstallations`. -/
structure ChartInfo where
  chartName : String
  chartPath : String
  repoName : String
  url : String
  releaseName : String
  flags : ChartFlags
deriving DecidableEq, Repr

/-- `types.HelmChartSpec` — decoded Helm source payload. -/
structure HelmChartSpec where
  url : String
  chartName : String
deriving DecidableEq, Repr

/-- `types.KustomizeSpec` — decoded Kustomize source payload. -/
structure KustomizeSpec where
  path : String
  url : String
deriving DecidableEq, Repr

/-- `types.RefTypeMetadata` values returned by `types.GetSpecType`. -/
inductive SpecType where
  | helmChart
  | ociRef
  | kustomize
  | nilRef
deriving DecidableEq, Repr

/-- `createHelmChartInfo` (deploy.go): decode the Helm spec and build the
chart info. `decodeHelm` is the result of `codec.Decode(install.Source.Raw,
&helmChartSpec, specType)` (the codec is an external collaborator). -/
def createHelmChartInfo (decodeHelm : Except GoErrMsg HelmChartSpec)
    (install : InstallEntry) : Except GoErrMsg ChartInfo :=
  match decodeHelm with
  | Except.error e => Except.error e
  | Except.ok helmChartSpec =>
    Except.ok { chartName := install.name ++ "/" ++ helmChartSpec.chartName,
                repoName := install.name,
                url := helmChartSpec.url,
                chartPath := "", releaseName := "",
                flags := { configFlags := [], setFlags := [] } }

/-- `createKustomizeChartInfo` (deploy.go). -/
def createKustomizeChartInfo (decodeKustomize : Except GoErrMsg KustomizeSpec)
    (install : InstallEntry) : Except GoErrMsg ChartInfo :=
  match decodeKustomize with
  | Except.error e => Except.error e
  | Except.ok kustomizeSpec =>
    Except.ok { chartName := install.name,
                chartPath := kustomizeSpec.path,
                url := kustomizeSpec.url,
                repoName := "", releaseName := "",
                flags := { configFlags := [], setFlags := [] } }

/-- `createOciChartInfo` (deploy.go): decode the image spec, extract the
chart path from the pulled layer (`getChartPath`, an external pull), and
build the chart info. -/
def createOciChartInfo (decodeImage : Except GoErrMsg ImageSpec)
    (getOciChartPath : ImageSpec → Except GoErrMsg String)
    (install : InstallEntry) : Except GoErrMsg ChartInfo :=
  match decodeImage with
  | Except.error e => Except.error e
  | Except.ok imageSpec =>
    match getOciChartPath imageSpec with
    | Except.error e => Except.error e
    | Except.ok chartPath =>
      Except.ok { chartName := install.name,
                  chartPath := chartPath,
                  repoName := "", url := "", releaseName := "",
                  flags := { configFlags := [], setFlags := [] } }

/-- `getChartInfoForInstall` (deploy.go): dispatch on the probed spec type.
`getSpecType` is `types.GetSpecType(install.Source.Raw)` (pkg/types, a
discriminant-field probe of the raw JSON). -/
def getChartInfoForInstall (install : InstallEntry)
    (getSpecType : Except GoErrMsg SpecType)
    (decodeHelm : Except GoErrMsg HelmChartSpec)
    (decodeImage : Except GoErrMsg ImageSpec)
    (decodeKustomize : Except GoErrMsg KustomizeSpec)
    (getOciChartPath : ImageSpec → Except GoErrMsg String) : Except GoErrMsg ChartInfo :=
  match getSpecType with
  | Except.error e => Except.error e
  | Except.ok specType =>
    match specType with
    | SpecType.helmChart => createHelmChartInfo decodeHelm install
    | SpecType.ociRef => createOciChartInfo decodeImage getOciChartPath install
    | SpecType.kustomize => createKustomizeChartInfo decodeKustomize install
    | SpecType.nilRef => Except.error "empty image type for resource chart installation"

/-- The single `types.InstallInfo` value allocated as `baseDeployInfo` in
`GetInstallInfos`. Inside `parseInstallations` every loop iteration executes
`deployInfo := baseDeployInfo` — copying the *pointer*, not the struct — so
all appended entries alias this one cell. Fields other than `ChartInfo` are
set before the loop and never change during it, so only `ChartInfo` (itself
a nilable pointer) is carried here. -/
structure InstallInfoCell where
  chartInfo : Option ChartInfo
deriving DecidableEq, Repr

/-- The loop body of `parseInstallations` (deploy.go) as explicit state
passing over the shared cell: each iteration builds the per-install
`chartInfo`, stamps `ReleaseName` and `Flags`, writes it through the shared
pointer (`deployInfo.ChartInfo = chartInfo`), and appends the same pointer to
`deployInfos` (tracked as `count`). `getChartInfo` is `getChartInfoForInstall`
with its collaborators fixed, `parseFlags` is `parseChartConfigAndValues`
(whose config lookup keys only on `install.Name`). -/
def parseInstallationsLoop (getChartInfo : InstallEntry → Except GoErrMsg ChartInfo)
    (parseFlags : String → Except GoErrMsg (GoMap × GoMap)) :
    List InstallEntry → InstallInfoCell → Nat → Except GoErrMsg (InstallInfoCell × Nat)
  | [], cell, count => Except.ok (cell, count)
  | install :: rest, cell, count =>
    match getChartInfo install with
    | Except.error e => Except.error e
    | Except.ok chartInfo =>
      match parseFlags install.name with
      | Except.error e => Except.error e
      | Except.ok (chartConfig, chartValues) =>
        let chartInfo := { chartInfo with
          releaseName := install.name,
          flags := { configFlags := chartConfig, setFlags := chartValues } }
        parseInstallationsLoop getChartInfo parseFlags rest
          { cell with chartInfo := some chartInfo } (count + 1)

/-- `parseInstallations` (deploy.go). The returned `deployInfos` slice holds
`count` copies of one pointer to the base cell; the observable result — what
a caller sees when dereferencing each entry — is therefore `count` copies of
the cell's final state. -/
def parseInstallations (manifestObj : Manifest)
    (getChartInfo : InstallEntry → Except GoErrMsg ChartInfo)
    (parseFlags : String → Except GoErrMsg (GoMap × GoMap)) :
    Except GoErrMsg (List InstallInfoCell) :=
  match parseInstallationsLoop getChartInfo parseFlags manifestObj.installs
      { chartInfo := none } 0 with
  | Except.error e => Except.error e
  | Except.ok (cell, count) => Except.ok (List.replicate count cell)

/-- Go `interface{}` values as seen by `parseConfigs`: the decoded YAML layer
is probed with type assertions to `map[string]any` and `[]any`, and the map
index `installConfigObj["configs"]` is compared against `nil` (both a missing
key and an explicit null read as `nil`). -/
inductive GoValue where
  | vmap : List (String × GoValue) → GoValue
  | varr : List GoValue → GoValue
  | vstr : String → GoValue
  | vnull : GoValue
  | vother : GoValue
deriving Repr

/-- First-match lookup in a decoded Go map (`m[key]`). -/
def lookupGoMap : List (String × GoValue) → String → Option GoValue
  | [], _ => none
  | (k, v) :: rest, key => if k = key then some v else lookupGoMap rest key

/-- The errors `getDecodedConfig` can surface: `io.EOF`,
`io.ErrUnexpectedEOF`, or anything else. -/
inductive DecodeError where
  | eof
  | unexpectedEOF
  | other : GoErrMsg → DecodeError
deriving DecidableEq, Repr

/-- The `configReadError` format string of deploy.go. -/
def configReadError (what : String) : GoErrMsg :=
  "reading install " ++ what ++ " resulted in an error for Manifest"

/-- `parseConfigs` (deploy.go). `getDecodedConfig` wraps the pull+decode of
the config layer (`getDecodedConfig` in the source: keychain resolution plus
`descriptor.DecodeUncompressedLayer`); it is only invoked when
`config.Type.NotEmpty()`. -/
def parseConfigs (config : ImageSpec)
    (getDecodedConfig : Unit → Except DecodeError GoValue) : Except GoErrMsg (List GoValue) :=
  if config.type ≠ "" then
    match getDecodedConfig () with
    | Except.error e =>
      -- if EOF error proceed without config
      match e with
      | DecodeError.eof => Except.ok []
      | DecodeError.unexpectedEOF => Except.ok []
      | DecodeError.other msg => Except.error msg
    | Except.ok decodedConfig =>
      match decodedConfig with
      | GoValue.vmap fields =>
        match lookupGoMap fields "configs" with
        | none => Except.ok []
        | some GoValue.vnull => Except.ok []
        | some (GoValue.varr configs) => Except.ok configs
        | some _ => Except.error (configReadError "chart config object of .spec.config")
      | _ => Except.error (configReadError ".spec.config")
  else Except.ok []

end Prepare

namespace ManifestOps

/-- The outcomes of `util.WriteToFile`: success, a permission error
(`os.IsPermission`), or any other failure. -/
inductive WriteErr where
  | permissionDenied
  | other : GoErrMsg → WriteErr
deriving DecidableEq, Repr

/-- `operations.getManifestForChartPath` (operations.go). The three renderer
calls are external collaborators returning Go `(string, error)` pairs:
`getManifestResources` = `renderSrc.GetManifestResources(chartName,
chartPath)`, `getCachedResources` = `renderSrc.GetCachedResources(chartName,
chartPath)`, `getRawManifest` = `renderSrc.GetRawManifest(deployInfo)`.
`writeToFile` is `util.WriteToFile(util.GetFsManifestChartPath(chartPath),
bytes)` applied to the rendered output. The result is the Go pair
`(string, error)`. -/
def getManifestForChartPath (getManifestResources : String × Option GoErrMsg)
    (getCachedResources : String × Option GoErrMsg)
    (getRawManifest : String × Option GoErrMsg)
    (chartPath : String)
    (writeToFile : String → Option WriteErr) : String × Option GoErrMsg :=
  -- 1. check provided manifest
  match getManifestResources with
  | (_, some e) => ("", some e)
  | (renderedManifest, none) =>
    if renderedManifest ≠ "" then (renderedManifest, none)
    else
      -- 2. check cached manifest
      match getCachedResources with
      | (_, some e) => ("", some e)
      | (cachedManifest, none) =>
        if cachedManifest ≠ "" then (cachedManifest, none)
        else
          -- 3. render manifests
          match getRawManifest with
          | (_, some e) => ("", some e)
          | (rawManifest, none) =>
            -- 4. persist only if static chart path was passed
            if chartPath ≠ "" then
              match writeToFile rawManifest with
              | some WriteErr.permissionDenied => (rawManifest, none)
              | some (WriteErr.other msg) => (rawManifest, some msg)
              | none => (rawManifest, none)
            else (rawManifest, none)

end ManifestOps

namespace Util

/-- `v1alpha1.InstallItem`. -/
structure InstallItem where
  chartName : String
  clientConfig : String
  overrides : String
deriving DecidableEq, Repr

/-- `v1alpha1.ManifestCondition`. `LastTransitionTime` (wall clock) is not
consulted by any claim and is omitted; condition type and status carry the
source's string constants (`"Ready"`, `"True"/"False"/"Unknown"`). -/
structure ManifestCondition where
  conditionType : String
  status : String
  message : String
  reason : String
  installInfo : InstallItem
deriving DecidableEq, Repr

/-- `getReadyConditionForComponent` (util/manifest.go): the loop over the
status conditions returning (a copy of) the first condition with type
`Ready` and reason = installName. -/
def getReadyConditionForComponent : List ManifestCondition → String →
    Option ManifestCondition
  | [], _ => none
  | c :: rest, installName =>
    if c.conditionType = "Ready" && c.reason = installName then some c
    else getReadyConditionForComponent rest installName

/-- The write-back loop at the end of `AddReadyConditionForObjects`: replace
the first condition with type `Ready` and the given reason. -/
def replaceFirstCond : List ManifestCondition → String → ManifestCondition →
    List ManifestCondition
  | [], _, _ => []
  | c :: rest, reason, newCond =>
    if c.conditionType = "Ready" && c.reason = reason then newCond :: rest
    else c :: replaceFirstCond rest reason newCond

/-- One iteration of `AddReadyConditionForObjects` (util/manifest.go): look
up (or append) the condition for `installItem.ChartName`, update its
message/status (and `InstallInfo` when the item carries config or override
payloads), and write it back over the first matching entry. -/
def addReadyConditionForItem (conditions : List ManifestCondition) (installItem : InstallItem)
    (conditionStatus message : String) : List ManifestCondition :=
  let found := getReadyConditionForComponent conditions installItem.chartName
  let condition :=
    match found with
    | some c => c
    | none => { conditionType := "Ready", reason := installItem.chartName,
                status := "", message := "", installInfo := ⟨"", "", ""⟩ }
  let conditions :=
    match found with
    | some _ => conditions
    | none => conditions ++ [condition]
  let condition := { condition with
    message := message,
    status := conditionStatus,
    installInfo :=
      if installItem.clientConfig ≠ "" ∨ installItem.overrides ≠ "" then installItem
      else condition.installInfo }
  replaceFirstCond conditions installItem.chartName condition

/-- `AddReadyConditionForObjects` (util/manifest.go) over the conditions list
of the Manifest status. -/
def AddReadyConditionForObjects (conditions : List ManifestCondition)
    (installItems : List InstallItem) (conditionStatus message : String) :
    List ManifestCondition :=
  installItems.foldl
    (fun cs installItem => addReadyConditionForItem cs installItem conditionStatus message)
    conditions

/-- `AddReadyConditionForResponses` (util/manifest.go). The model response
carries `clientConfig`/`overrides` already JSON-marshalled (the
`json.Marshal` calls are external; a marshal failure only logs). -/
def AddReadyConditionForResponses (responses : List InstallResponse)
    (conditions : List ManifestCondition) : List ManifestCondition :=
  responses.foldl
    (fun cs response =>
      let conditionStatus :=
        if response.err.isSome then "False"
        else if !response.ready then "Unknown"
        else "True"
      let message :=
        if response.err.isSome then "installation error"
        else if !response.ready then "installation processing"
        else "installation successful"
      AddReadyConditionForObjects cs
        [{ chartName := response.chartName,
           clientConfig := response.clientConfig,
           overrides := response.overrides }] conditionStatus message)
    conditions

end Util

namespace Diff

/-- Paths are processed as character lists so that the Go string functions
(`strings.Split`, `strings.ReplaceAll`, `path.Clean`, `filepath.Join`) can be
modelled by structural recursion; the `String` boundary is crossed only in
`CleanFilePathJoin` itself. A path segment is a character list. -/
abbrev Seg := List Char

/-- `strings.Split(s, string(c))` for a one-character separator: the
separator-free chunks, including empty chunks around consecutive or leading
and trailing separators. Never returns `[]`. -/
def splitChar (c : Char) : List Char → List Seg
  | [] => [[]]
  | x :: xs =>
    if x = c then [] :: splitChar c xs
    else
      match splitChar c xs with
      | h :: t => (x :: h) :: t
      | [] => [[x]]

/-- The component stack of Go's `path.Clean` (identical to
`filepath.Clean` with separator `/` on Linux), processed segment by segment.
The head of `acc` is the top of the stack. Empty and `.` segments are
dropped; `..` pops a poppable component, is pushed when the path is relative
and nothing is poppable (the stack is empty or all `..`), and is dropped at
the root of an absolute path; other segments are pushed. This is the
segment-level reading of the `r`/`dotdot` loop in Go's `path.Clean`. -/
def cleanCore (rooted : Bool) : List Seg → List Seg → List Seg
  | [], acc => acc
  | s :: rest, acc =>
    if s = [] ∨ s = ['.'] then cleanCore rooted rest acc
    else if s = ['.', '.'] then
      match acc with
      | a :: tail =>
        if a = ['.', '.'] then cleanCore rooted rest (s :: a :: tail)
        else cleanCore rooted rest tail
      | [] =>
        if rooted then cleanCore rooted rest []
        else cleanCore rooted rest [s]
    else cleanCore rooted rest (s :: acc)

/-- Join segments with a separator character. -/
def interSeg (c : Char) : List Seg → List Char
  | [] => []
  | [s] => s
  | s :: rest => s ++ c :: interSeg c rest

/-- Rebuild the cleaned path from its components (in order): `path.Clean`
returns `/`-prefixed output for rooted input, `.` for an empty relative
result, and `/` for an empty rooted result. -/
def renderPath (rooted : Bool) (comps : List Seg) : List Char :=
  if rooted then '/' :: interSeg '/' comps
  else if comps = [] then ['.'] else interSeg '/' comps

/-- Whether a path is rooted (`path.IsAbs` / leading separator). -/
def isRooted (s : List Char) : Bool :=
  s.head? = some '/'

/-- Go `path.Clean` (= `filepath.Clean` on Linux) over character lists. -/
def goPathClean (s : List Char) : List Char :=
  if s = [] then ['.']
  else
    renderPath (isRooted s) (cleanCore (isRooted s) (splitChar '/' s) []).reverse

/-- Go `filepath.Join(a, b)` on Linux: skip empty elements, join the rest
with `/`, and `Clean` the result; all elements empty yields `""`. -/
def goFilepathJoin (a b : List Char) : List Char :=
  if a ≠ [] then goPathClean (a ++ '/' :: b)
  else if b ≠ [] then goPathClean b
  else []

/-- `strings.ReplaceAll(dest, "\\", "/")`: a character-wise replacement for
the one-character pattern. -/
def normalizeSeps (s : List Char) : List Char :=
  s.map (fun ch => if ch = '\\' then '/' else ch)

/-- `CleanFilePathJoin` (diff/typeconverter.go). `filepath.ToSlash` is the
identity on Linux (the separator already is `/`). -/
def CleanFilePathJoin (root dest : String) : Except GoErrMsg String :=
  if dest.toList.contains ':' then
    Except.error "path contains ':', which is illegal"
  else
    let destL := normalizeSeps dest.toList
    if (splitChar '/' destL).contains ['.', '.'] then
      Except.error "path contains '..', which is illegal"
    else if isRooted destL then
      Except.error "path is absolute, which is illegal"
    else
      Except.ok (String.mk (goFilepathJoin root.toList (goPathClean destL)))

/-- The components of a cleaned-path string: its separator-split chunks with
empty and `.` chunks dropped. Used to state that a joined result never
escapes its root. -/
def pathComponents (p : List Char) : List Seg :=
  (splitChar '/' p).filter (fun s => s ≠ [] ∧ s ≠ ['.'])

/-- The cleaned component stack of a root directory path (empty for the
empty root, matching `filepath.Join`'s skipping of empty elements). -/
def rootComponents (root : List Char) : List Seg :=
  (cleanCore (isRooted root) (splitChar '/' root) []).reverse

end Diff

/-! ## Theorems -/

namespace Controllers

/-- Characterization of the receive loop: with at least `n` responses
arriving, the loop reads exactly the first `n`, or-ing the error and
processing flags over them and appending them to the `responses` slice. -/
theorem collectLoop_spec (n : Nat) :
    ∀ (stream : List InstallResponse) (e p : Bool) (acc : List InstallResponse),
    n ≤ stream.length →
    collectLoop n stream e p acc =
      some (e || (stream.take n).any (fun r => r.err.isSome),
            p || (stream.take n).any (fun r => r.err.isNone && !r.ready),
            acc.reverse ++ stream.take n) := by
  induction n with
  | zero =>
    intro stream e p acc _
    simp [collectLoop]
  | succ n ih =>
    intro stream e p acc h
    match stream with
    | [] => simp at h
    | r :: rest =>
      have hr : n ≤ rest.length := by
        simpa using Nat.le_of_succ_le_succ h
      have := ih rest (e || r.err.isSome) (p || (r.err.isNone && !r.ready)) (r :: acc) hr
      simp only [collectLoop, this, List.take_succ_cons, List.any_cons,
        List.reverse_cons, Bool.or_assoc, Option.some.injEq]
      simp

/-- C1: for a dispatch round with `chartCount` Installs whose responses all
arrive, the collector reads exactly `chartCount` responses; `errorSeen` is
set if any response carries an error and `processing` holds exactly when some
response has `ready = false` and no error; and every end state it writes is
`Error` if `errorSeen` (dominating `processing`), else `Deleting` if a
deletion is underway, else `Processing` if processing, and `Ready` only when
every response was ready with no error. -/
theorem responseHandler_reads_n_and_maps_end_state (chartCount : Nat)
    (stream : List InstallResponse) (deletionTimestampSet finalizerUpdateSucceeds : Bool)
    (h : chartCount ≤ stream.length) :
    ∃ out, ResponseHandlerFunc chartCount stream true deletionTimestampSet
        finalizerUpdateSucceeds = some out
      ∧ out.responsesRead = stream.take chartCount
      ∧ out.responsesRead.length = chartCount
      ∧ ((stream.take chartCount).any (fun r => r.err.isSome) = true → out.errorSeen = true)
      ∧ out.processing = (stream.take chartCount).any (fun r => r.err.isNone && !r.ready)
      ∧ (∀ s, out.statusWritten = some s →
          s = if out.errorSeen then ManifestState.error
              else if deletionTimestampSet then ManifestState.deleting
              else if out.processing then ManifestState.processing
              else ManifestState.ready)
      ∧ (out.statusWritten = some ManifestState.ready →
          ∀ r ∈ stream.take chartCount, r.ready = true ∧ r.err = none) := by
  have hc := collectLoop_spec chartCount stream false false [] h
  simp only [Bool.false_or, List.reverse_nil, List.nil_append] at hc
  have hlen : (stream.take chartCount).length = chartCount := List.length_take_of_le h
  have hready : (stream.take chartCount).any (fun r => r.err.isSome) = false →
      (stream.take chartCount).any (fun r => r.err.isNone && !r.ready) = false →
      ∀ r ∈ stream.take chartCount, r.ready = true ∧ r.err = none := by
    intro he hp r hr
    have he' := List.any_eq_false.mp he r hr
    have hp' := List.any_eq_false.mp hp r hr
    have herr : r.err = none := Option.not_isSome_iff_eq_none.mp (by simpa using he')
    refine ⟨?_, herr⟩
    simp only [herr, Option.isNone_none, Bool.true_and] at hp'
    simpa using hp'
  cases hEv : (stream.take chartCount).any (fun r => r.err.isSome) with
  | true =>
    refine ⟨{ responsesRead := stream.take chartCount, errorSeen := true,
              processing := (stream.take chartCount).any (fun r => r.err.isNone && !r.ready),
              finalizerRemovalAttempted := false, finalizerRemovalPersisted := false,
              statusWritten := some ManifestState.error }, ?_, rfl, hlen,
            fun _ => rfl, rfl, ?_, ?_⟩
    · unfold ResponseHandlerFunc
      rw [hc, hEv]
      simp [setProcessedState]
    · intro s hs
      simp only [Option.some.injEq] at hs
      subst hs
      simp
    · intro habs
      simp at habs
  | false =>
    cases hD : deletionTimestampSet with
    | false =>
      refine ⟨{ responsesRead := stream.take chartCount, errorSeen := false,
                processing := (stream.take chartCount).any (fun r => r.err.isNone && !r.ready),
                finalizerRemovalAttempted := false, finalizerRemovalPersisted := false,
                statusWritten := some (setProcessedState false
                  ((stream.take chartCount).any (fun r => r.err.isNone && !r.ready)) false) },
              ?_, rfl, hlen, by simp [hEv], rfl, ?_, ?_⟩
      · unfold ResponseHandlerFunc
        rw [hc, hEv]
        simp
      · intro s hs
        simp only [Option.some.injEq] at hs
        subst hs
        simp [setProcessedState]
      · intro hws
        cases hPv : (stream.take chartCount).any (fun r => r.err.isNone && !r.ready) with
        | true => simp [setProcessedState, hPv] at hws
        | false => exact hready hEv hPv
    | true =>
      cases hPv : (stream.take chartCount).any (fun r => r.err.isNone && !r.ready) with
      | true =>
        refine ⟨{ responsesRead := stream.take chartCount, errorSeen := false,
                  processing := true,
                  finalizerRemovalAttempted := false, finalizerRemovalPersisted := false,
                  statusWritten := some ManifestState.deleting },
                ?_, rfl, hlen, by simp, rfl, ?_, ?_⟩
        · unfold ResponseHandlerFunc
          rw [hc, hEv, hPv]
          simp [setProcessedState]
        · intro s hs
          simp only [Option.some.injEq] at hs
          subst hs
          simp
        · intro hws
          simp at hws
      | false =>
        cases hF : finalizerUpdateSucceeds with
        | true =>
          refine ⟨{ responsesRead := stream.take chartCount, errorSeen := false,
                    processing := false,
                    finalizerRemovalAttempted := true, finalizerRemovalPersisted := true,
                    statusWritten := none },
                  ?_, rfl, hlen, by simp, rfl, by simp, by simp⟩
          unfold ResponseHandlerFunc
          rw [hc, hEv, hPv]
          simp
        | false =>
          refine ⟨{ responsesRead := stream.take chartCount, errorSeen := true,
                    processing := false,
                    finalizerRemovalAttempted := true, finalizerRemovalPersisted := false,
                    statusWritten := some ManifestState.error },
                  ?_, rfl, hlen, fun _ => rfl, rfl, ?_, ?_⟩
          · unfold ResponseHandlerFunc
            rw [hc, hEv, hPv]
            simp [setProcessedState]
          · intro s hs
            simp only [Option.some.injEq] at hs
            subst hs
            simp
          · intro hws
            simp at hws

/-- Witness for C1: a two-install round with one erroring and one ready
response, on a live (non-deleting) Manifest. -/
theorem responseHandler_reads_n_and_maps_end_state_witness :
    ∃ out, ResponseHandlerFunc 2
        [⟨true, none, "chart-a", "", ""⟩, ⟨false, some "pull failed", "chart-b", "", ""⟩]
        true false true = some out
      ∧ out.responsesRead =
          ([⟨true, none, "chart-a", "", ""⟩,
            ⟨false, some "pull failed", "chart-b", "", ""⟩] : List InstallResponse).take 2
      ∧ out.responsesRead.length = 2
      ∧ ((([⟨true, none, "chart-a", "", ""⟩,
            ⟨false, some "pull failed", "chart-b", "", ""⟩] : List InstallResponse).take 2).any
            (fun r => r.err.isSome) = true → out.errorSeen = true)
      ∧ out.processing =
          (([⟨true, none, "chart-a", "", ""⟩,
             ⟨false, some "pull failed", "chart-b", "", ""⟩] : List InstallResponse).take 2).any
            (fun r => r.err.isNone && !r.ready)
      ∧ (∀ s, out.statusWritten = some s →
          s = if out.errorSeen then ManifestState.error
              else if false then ManifestState.deleting
              else if out.processing then ManifestState.processing
              else ManifestState.ready)
      ∧ (out.statusWritten = some ManifestState.ready →
          ∀ r ∈ ([⟨true, none, "chart-a", "", ""⟩,
                  ⟨false, some "pull failed", "chart-b", "", ""⟩] : List InstallResponse).take 2,
            r.ready = true ∧ r.err = none) :=
  responseHandler_reads_n_and_maps_end_state 2
    [⟨true, none, "chart-a", "", ""⟩, ⟨false, some "pull failed", "chart-b", "", ""⟩]
    false true (by decide)

/-- C2 counterexample: a deleting Manifest whose single install response
carries an error makes the aggregator write `Error` — a status write other
than `Deleting` while the deletion timestamp is set, contradicting the claim
that all transitions stay within `Deleting`. -/
theorem deleting_manifest_error_write_counterexample :
    ResponseHandlerFunc 1 [⟨false, some "chart installation failure", "chart-a", "", ""⟩]
        true true true
      = some { responsesRead := [⟨false, some "chart installation failure", "chart-a", "", ""⟩],
               errorSeen := true, processing := false,
               finalizerRemovalAttempted := false, finalizerRemovalPersisted := false,
               statusWritten := some ManifestState.error }
      ∧ ManifestState.error ≠ ManifestState.deleting := by
  constructor
  · rfl
  · intro habs
    cases habs

/-- C2 amended: while the deletion timestamp is set, every state the
reconciler writes is `Deleting` or `Error` (never `Processing` or `Ready`):
the deletion-detection step at the top of `Reconcile` writes only `Deleting`,
and the response aggregator writes `Deleting` when no error was seen and
`Error` when `errorSeen` (including the finalizer-removal-failure
escalation). -/
theorem deleting_manifest_writes_only_deleting_or_error (chartCount : Nat)
    (stream : List InstallResponse) (getLatestSucceeds finalizerUpdateSucceeds : Bool) :
    (∀ out s, ResponseHandlerFunc chartCount stream getLatestSucceeds true
          finalizerUpdateSucceeds = some out →
        out.statusWritten = some s →
        s = ManifestState.deleting ∨ s = ManifestState.error)
    ∧ (∀ state s, reconcileDeletionCheckWrite true state = some s →
        s = ManifestState.deleting) := by
  constructor
  · intro out s hout hs
    unfold ResponseHandlerFunc at hout
    rcases hc : collectLoop chartCount stream false false [] with _ | ⟨e, p, resp⟩ <;>
      rw [hc] at hout
    · cases hout
    · cases getLatestSucceeds
      · simp at hout
      · cases e <;> cases p <;> cases finalizerUpdateSucceeds <;>
          simp only [setProcessedState, Bool.not_true, Bool.not_false, Bool.true_and,
            Bool.and_true, Bool.and_false, Bool.false_and, if_true, if_false,
            Bool.false_eq_true, Bool.true_eq_false, ite_true, ite_false,
            Option.some.injEq, reduceIte] at hout <;>
          subst hout <;>
          simp only [Option.some.injEq] at hs <;>
          first
            | (subst hs; simp)
            | cases hs
  · intro state s hw
    unfold reconcileDeletionCheckWrite at hw
    by_cases hstate : state = some ManifestState.deleting
    · simp [hstate] at hw
    · simp [hstate] at hw
      exact hw.symm

/-- Witness for C2-amended: the error write of the counterexample round is
covered by the amended disjunction, and the deletion-detection step's write
is `Deleting`. -/
theorem deleting_manifest_writes_only_deleting_or_error_witness :
    (ManifestState.error = ManifestState.deleting ∨
      ManifestState.error = ManifestState.error)
    ∧ ManifestState.deleting = ManifestState.deleting :=
  ⟨(deleting_manifest_writes_only_deleting_or_error 1
      [⟨false, some "chart installation failure", "chart-a", "", ""⟩] true true).1
      { responsesRead := [⟨false, some "chart installation failure", "chart-a", "", ""⟩],
        errorSeen := true, processing := false,
        finalizerRemovalAttempted := false, finalizerRemovalPersisted := false,
        statusWritten := some ManifestState.error } ManifestState.error rfl rfl,
    (deleting_manifest_writes_only_deleting_or_error 1 [] true true).2
      (some ManifestState.ready) ManifestState.deleting rfl⟩

/-- C3: when the aggregator sees no error, nothing processing, and the
deletion timestamp set, it removes the finalizer via a final object update
(and writes no further status on success); it escalates to
`errorSeen = true` exactly when that finalizer-removing update fails, in
which case the written end state is `Error`. -/
theorem aggregator_finalizer_removal (chartCount : Nat) (stream : List InstallResponse)
    (finalizerUpdateSucceeds : Bool) (h : chartCount ≤ stream.length)
    (hNoErr : (stream.take chartCount).any (fun r => r.err.isSome) = false)
    (hNoProc : (stream.take chartCount).any (fun r => r.err.isNone && !r.ready) = false) :
    ∃ out, ResponseHandlerFunc chartCount stream true true finalizerUpdateSucceeds = some out
      ∧ out.finalizerRemovalAttempted = true
      ∧ (finalizerUpdateSucceeds = true →
          out.finalizerRemovalPersisted = true ∧ out.statusWritten = none
            ∧ out.errorSeen = false)
      ∧ (out.errorSeen = true ↔ finalizerUpdateSucceeds = false)
      ∧ (finalizerUpdateSucceeds = false →
          out.statusWritten = some ManifestState.error) := by
  have hc := collectLoop_spec chartCount stream false false [] h
  simp only [Bool.false_or, List.reverse_nil, List.nil_append, hNoErr, hNoProc] at hc
  cases hF : finalizerUpdateSucceeds with
  | true =>
    refine ⟨{ responsesRead := stream.take chartCount, errorSeen := false,
              processing := false, finalizerRemovalAttempted := true,
              finalizerRemovalPersisted := true, statusWritten := none },
            ?_, rfl, fun _ => ⟨rfl, rfl, rfl⟩, by simp, by simp⟩
    unfold ResponseHandlerFunc
    rw [hc]
    simp
  | false =>
    refine ⟨{ responsesRead := stream.take chartCount, errorSeen := true,
              processing := false, finalizerRemovalAttempted := true,
              finalizerRemovalPersisted := false,
              statusWritten := some ManifestState.error },
            ?_, rfl, by simp, by simp, fun _ => rfl⟩
    unfold ResponseHandlerFunc
    rw [hc]
    simp [setProcessedState]

/-- Witness for C3: a single ready, error-free response on a deleting
Manifest whose finalizer-removing update fails. -/
theorem aggregator_finalizer_removal_witness :
    ∃ out, ResponseHandlerFunc 1 [⟨true, none, "chart-a", "", ""⟩] true true false = some out
      ∧ out.finalizerRemovalAttempted = true
      ∧ (false = true →
          out.finalizerRemovalPersisted = true ∧ out.statusWritten = none
            ∧ out.errorSeen = false)
      ∧ (out.errorSeen = true ↔ false = false)
      ∧ (false = false → out.statusWritten = some ManifestState.error) :=
  aggregator_finalizer_removal 1 [⟨true, none, "chart-a", "", ""⟩] false
    (by decide) (by decide) (by decide)

/-- C9: `SetWorkerPoolSize` sets the size to the construction-time initial
size for positive inputs and to the raw `newSize` otherwise, `initialSize`
never changes, and `GetWorkerPoolSize` reads the resulting size back. -/
theorem setWorkerPoolSize_spec (mw : ManifestWorkerPool) (w newSize : Int) :
    GetWorkerPoolSize (SetWorkerPoolSize mw newSize) =
      (if newSize > 0 then mw.initialSize else newSize)
    ∧ (SetWorkerPoolSize mw newSize).initialSize = mw.initialSize
    ∧ GetWorkerPoolSize (SetWorkerPoolSize (NewManifestWorkers w) newSize) =
        (if newSize > 0 then w else newSize) := by
  refine ⟨?_, ?_, ?_⟩ <;> by_cases hpos : newSize > 0 <;>
    simp [GetWorkerPoolSize, SetWorkerPoolSize, NewManifestWorkers, hpos]

end Controllers

namespace Prepare

/-- C4: target-cluster resolution. Not remote ⇒ the host `ClusterInfo` is
returned unchanged. Remote with the `cache-key` label absent ⇒ a config
error. Remote with a cached processor for the owner key ⇒ that processor's
`ClusterInfo` (and error, as returned by `GetClusterInfo`). Remote with no
cached processor ⇒ the REST config comes from the custom getter when one is
installed and from the default secret-based getter otherwise, and the
returned `ClusterInfo` has its client not yet set. -/
theorem getDestinationConfigAndClient_spec (defaultClusterInfo : ClusterInfo)
    (manifestObj : Manifest) (getProcessor : String × String → Option Processor)
    (customCfgGetter : Option (Unit → Except GoErrMsg RESTConfig))
    (defaultRESTConfigGetter : String → String → Except GoErrMsg RESTConfig) :
    (manifestObj.remote = false →
      getDestinationConfigAndClient defaultClusterInfo manifestObj getProcessor
        customCfgGetter defaultRESTConfigGetter = (defaultClusterInfo, none))
    ∧ (manifestObj.remote = true → manifestObj.labels.lookup CacheKey = none →
      ∃ e, getDestinationConfigAndClient defaultClusterInfo manifestObj getProcessor
        customCfgGetter defaultRESTConfigGetter = ({ config := none, client := none }, some e))
    ∧ (∀ owner processor, manifestObj.remote = true →
      manifestObj.labels.lookup CacheKey = some owner →
      getProcessor (owner, manifestObj.nspace) = some processor →
      getDestinationConfigAndClient defaultClusterInfo manifestObj getProcessor
        customCfgGetter defaultRESTConfigGetter = processor.getClusterInfo)
    ∧ (∀ owner getter restConfig, manifestObj.remote = true →
      manifestObj.labels.lookup CacheKey = some owner →
      getProcessor (owner, manifestObj.nspace) = none →
      customCfgGetter = some getter → getter () = Except.ok restConfig →
      getDestinationConfigAndClient defaultClusterInfo manifestObj getProcessor
        customCfgGetter defaultRESTConfigGetter =
        ({ config := some restConfig, client := none }, none))
    ∧ (∀ owner restConfig, manifestObj.remote = true →
      manifestObj.labels.lookup CacheKey = some owner →
      getProcessor (owner, manifestObj.nspace) = none →
      customCfgGetter = none →
      defaultRESTConfigGetter owner manifestObj.nspace = Except.ok restConfig →
      getDestinationConfigAndClient defaultClusterInfo manifestObj getProcessor
        customCfgGetter defaultRESTConfigGetter =
        ({ config := some restConfig, client := none }, none)) := by
  refine ⟨?_, ?_, ?_, ?_, ?_⟩
  · intro hrem
    simp [getDestinationConfigAndClient, hrem]
  · intro hrem hlabel
    refine ⟨"label " ++ CacheKey ++ " not found on resource " ++ manifestObj.nspace
      ++ "/" ++ manifestObj.name, ?_⟩
    simp [getDestinationConfigAndClient, hrem, GetResourceLabel, hlabel]
  · intro owner processor hrem hlabel hproc
    simp [getDestinationConfigAndClient, hrem, GetResourceLabel, hlabel, hproc]
  · intro owner getter restConfig hrem hlabel hproc hcustom hok
    simp [getDestinationConfigAndClient, hrem, GetResourceLabel, hlabel, hproc, hcustom, hok]
  · intro owner restConfig hrem hlabel hproc hcustom hok
    simp [getDestinationConfigAndClient, hrem, GetResourceLabel, hlabel, hproc, hcustom, hok]

/-- Witness for C4: each branch of the resolution exercised at a concrete
Manifest, cache and getter. -/
theorem getDestinationConfigAndClient_spec_witness :
    (getDestinationConfigAndClient ⟨some ⟨"host"⟩, some "host-client"⟩
        { name := "m", nspace := "default", labels := [], remote := false, installs := [],
          configSpec := ⟨"", "", "", ""⟩ }
        (fun _ => none) none (fun _ _ => Except.error "no secret")
      = (⟨some ⟨"host"⟩, some "host-client"⟩, none))
    ∧ (∃ e, getDestinationConfigAndClient ⟨some ⟨"host"⟩, some "host-client"⟩
        { name := "m", nspace := "default", labels := [], remote := true, installs := [],
          configSpec := ⟨"", "", "", ""⟩ }
        (fun _ => none) none (fun _ _ => Except.error "no secret")
      = ({ config := none, client := none }, some e))
    ∧ (getDestinationConfigAndClient ⟨some ⟨"host"⟩, some "host-client"⟩
        { name := "m", nspace := "default",
          labels := [("operator.kyma-project.io/cache-key", "kyma")], remote := true,
          installs := [], configSpec := ⟨"", "", "", ""⟩ }
        (fun _ => some ⟨(⟨some ⟨"remote"⟩, some "remote-client"⟩, none)⟩) none
        (fun _ _ => Except.error "no secret")
      = (⟨some ⟨"remote"⟩, some "remote-client"⟩, none))
    ∧ (getDestinationConfigAndClient ⟨some ⟨"host"⟩, some "host-client"⟩
        { name := "m", nspace := "default",
          labels := [("operator.kyma-project.io/cache-key", "kyma")], remote := true,
          installs := [], configSpec := ⟨"", "", "", ""⟩ }
        (fun _ => none) (some (fun _ => Except.ok ⟨"custom"⟩))
        (fun _ _ => Except.error "no secret")
      = ({ config := some ⟨"custom"⟩, client := none }, none))
    ∧ (getDestinationConfigAndClient ⟨some ⟨"host"⟩, some "host-client"⟩
        { name := "m", nspace := "default",
          labels := [("operator.kyma-project.io/cache-key", "kyma")], remote := true,
          installs := [], configSpec := ⟨"", "", "", ""⟩ }
        (fun _ => none) none (fun _ _ => Except.ok ⟨"from-secret"⟩)
      = ({ config := some ⟨"from-secret"⟩, client := none }, none)) := by
  refine ⟨?_, ?_, ?_, ?_, ?_⟩
  · exact (getDestinationConfigAndClient_spec _ _ _ _ _).1 rfl
  · exact (getDestinationConfigAndClient_spec _ _ _ _ _).2.1 rfl rfl
  · exact (getDestinationConfigAndClient_spec _ _ _ _ _).2.2.1 "kyma"
      ⟨(⟨some ⟨"remote"⟩, some "remote-client"⟩, none)⟩ rfl rfl rfl
  · exact (getDestinationConfigAndClient_spec _ _ _ _ _).2.2.2.1 "kyma"
      (fun _ => Except.ok ⟨"custom"⟩) ⟨"custom"⟩ rfl rfl rfl rfl rfl
  · exact (getDestinationConfigAndClient_spec _ _ _ _ _).2.2.2.2 "kyma"
      ⟨"from-secret"⟩ rfl rfl rfl rfl rfl

/-- C5: on a two-install Manifest with distinct install names, every entry of
the slice returned by `parseInstallations` dereferences to the same shared
`InstallInfo` cell, whose chart info is the one built for the *last* install:
both jobs report release name `"install-b"`, so the first job does not carry
the first Install's chart info (release name `"install-a"`), contradicting
the claim that the i-th job carries the i-th Install's own chart info. -/
theorem parseInstallations_shares_one_chart_info :
    (parseInstallations
        { name := "m", nspace := "default", labels := [], remote := false,
          installs := [⟨"install-a", "rawA"⟩, ⟨"install-b", "rawB"⟩],
          configSpec := ⟨"", "", "", ""⟩ }
        (fun install => Except.ok
          { chartName := install.name, chartPath := "", repoName := "", url := "",
            releaseName := "", flags := { configFlags := [], setFlags := [] } })
        (fun _ => Except.ok ([], []))).map
      (fun jobs => jobs.map (fun job => job.chartInfo.map (fun ci => ci.releaseName)))
      = Except.ok [some "install-b", some "install-b"]
    ∧ ("install-b" : String) ≠ "install-a" := by
  constructor
  · rfl
  · decide

/-- C8: decoding the optional config layer. An empty config type short
circuits to an empty config list for every decoder outcome (no layer is
pulled); `io.EOF` and `io.ErrUnexpectedEOF` decode failures are swallowed
into an empty config list with no error; every other decode failure is
propagated. -/
theorem parseConfigs_spec (config : ImageSpec)
    (getDecodedConfig : Unit → Except DecodeError GoValue) :
    (config.type = "" → parseConfigs config getDecodedConfig = Except.ok [])
    ∧ (config.type ≠ "" → getDecodedConfig () = Except.error DecodeError.eof →
      parseConfigs config getDecodedConfig = Except.ok [])
    ∧ (config.type ≠ "" → getDecodedConfig () = Except.error DecodeError.unexpectedEOF →
      parseConfigs config getDecodedConfig = Except.ok [])
    ∧ (∀ msg, config.type ≠ "" →
      getDecodedConfig () = Except.error (DecodeError.other msg) →
      parseConfigs config getDecodedConfig = Except.error msg) := by
  refine ⟨?_, ?_, ?_, ?_⟩
  · intro htype
    simp [parseConfigs, htype]
  · intro htype hdec
    simp [parseConfigs, htype, hdec]
  · intro htype hdec
    simp [parseConfigs, htype, hdec]
  · intro msg htype hdec
    simp [parseConfigs, htype, hdec]

/-- Witness for C8: the three decode outcomes at a concrete `ImageSpec`. -/
theorem parseConfigs_spec_witness :
    (parseConfigs ⟨"r", "n", "v", ""⟩ (fun _ => Except.ok GoValue.vnull) = Except.ok [])
    ∧ (parseConfigs ⟨"r", "n", "v", "oci-ref"⟩ (fun _ => Except.error DecodeError.eof)
        = Except.ok [])
    ∧ (parseConfigs ⟨"r", "n", "v", "oci-ref"⟩
        (fun _ => Except.error DecodeError.unexpectedEOF) = Except.ok [])
    ∧ (parseConfigs ⟨"r", "n", "v", "oci-ref"⟩
        (fun _ => Except.error (DecodeError.other "layer not found"))
        = Except.error "layer not found") :=
  ⟨(parseConfigs_spec _ _).1 rfl,
   (parseConfigs_spec _ _).2.1 (by decide) rfl,
   (parseConfigs_spec _ _).2.2.1 (by decide) rfl,
   (parseConfigs_spec _ _).2.2.2 "layer not found" (by decide) rfl⟩

end Prepare

namespace ManifestOps

/-- C6: rendered-manifest acquisition priority and persist tolerance. The
pre-rendered file at the chart path wins; else the cached rendered file;
else the raw render, persisted when a static chart path was passed — with a
permission failure of the persist tolerated (manifest returned, no error)
and any other persist failure returned as an error alongside the manifest;
errors of the three acquisition steps propagate. -/
theorem getManifestForChartPath_spec (pre cached raw : String × Option GoErrMsg)
    (chartPath : String) (writeToFile : String → Option WriteErr) :
    (∀ m, pre = (m, none) → m ≠ "" →
      getManifestForChartPath pre cached raw chartPath writeToFile = (m, none))
    ∧ (∀ m e, pre = (m, some e) →
      getManifestForChartPath pre cached raw chartPath writeToFile = ("", some e))
    ∧ (∀ c, pre = ("", none) → cached = (c, none) → c ≠ "" →
      getManifestForChartPath pre cached raw chartPath writeToFile = (c, none))
    ∧ (∀ c e, pre = ("", none) → cached = (c, some e) →
      getManifestForChartPath pre cached raw chartPath writeToFile = ("", some e))
    ∧ (∀ r e, pre = ("", none) → cached = ("", none) → raw = (r, some e) →
      getManifestForChartPath pre cached raw chartPath writeToFile = ("", some e))
    ∧ (∀ r, pre = ("", none) → cached = ("", none) → raw = (r, none) →
      chartPath ≠ "" → writeToFile r = some WriteErr.permissionDenied →
      getManifestForChartPath pre cached raw chartPath writeToFile = (r, none))
    ∧ (∀ r msg, pre = ("", none) → cached = ("", none) → raw = (r, none) →
      chartPath ≠ "" → writeToFile r = some (WriteErr.other msg) →
      getManifestForChartPath pre cached raw chartPath writeToFile = (r, some msg))
    ∧ (∀ r, pre = ("", none) → cached = ("", none) → raw = (r, none) →
      chartPath ≠ "" → writeToFile r = none →
      getManifestForChartPath pre cached raw chartPath writeToFile = (r, none))
    ∧ (∀ r, pre = ("", none) → cached = ("", none) → raw = (r, none) → chartPath = "" →
      getManifestForChartPath pre cached raw chartPath writeToFile = (r, none)) := by
  refine ⟨?_, ?_, ?_, ?_, ?_, ?_, ?_, ?_, ?_⟩
  · intro m hpre hm
    subst hpre
    simp [getManifestForChartPath, hm]
  · intro m e hpre
    subst hpre
    simp [getManifestForChartPath]
  · intro c hpre hcached hc
    subst hpre
    subst hcached
    simp [getManifestForChartPath, hc]
  · intro c e hpre hcached
    subst hpre
    subst hcached
    simp [getManifestForChartPath]
  · intro r e hpre hcached hraw
    subst hpre
    subst hcached
    subst hraw
    simp [getManifestForChartPath]
  · intro r hpre hcached hraw hcp hw
    subst hpre
    subst hcached
    subst hraw
    simp [getManifestForChartPath, hcp, hw]
  · intro r msg hpre hcached hraw hcp hw
    subst hpre
    subst hcached
    subst hraw
    simp [getManifestForChartPath, hcp, hw]
  · intro r hpre hcached hraw hcp hw
    subst hpre
    subst hcached
    subst hraw
    simp [getManifestForChartPath, hcp, hw]
  · intro r hpre hcached hraw hcp
    subst hpre
    subst hcached
    subst hraw
    simp [getManifestForChartPath, hcp]

/-- Witness for C6: all nine branches at concrete inputs. -/
theorem getManifestForChartPath_spec_witness :
    (getManifestForChartPath ("pre-rendered", none) ("", none) ("", none) "/chart"
        (fun _ => none) = ("pre-rendered", none))
    ∧ (getManifestForChartPath ("", some "stat failed") ("", none) ("", none) "/chart"
        (fun _ => none) = ("", some "stat failed"))
    ∧ (getManifestForChartPath ("", none) ("cached", none) ("", none) "/chart"
        (fun _ => none) = ("cached", none))
    ∧ (getManifestForChartPath ("", none) ("", some "read failed") ("", none) "/chart"
        (fun _ => none) = ("", some "read failed"))
    ∧ (getManifestForChartPath ("", none) ("", none) ("", some "render failed") "/chart"
        (fun _ => none) = ("", some "render failed"))
    ∧ (getManifestForChartPath ("", none) ("", none) ("rendered", none) "/chart"
        (fun _ => some WriteErr.permissionDenied) = ("rendered", none))
    ∧ (getManifestForChartPath ("", none) ("", none) ("rendered", none) "/chart"
        (fun _ => some (WriteErr.other "disk full")) = ("rendered", some "disk full"))
    ∧ (getManifestForChartPath ("", none) ("", none) ("rendered", none) "/chart"
        (fun _ => none) = ("rendered", none))
    ∧ (getManifestForChartPath ("", none) ("", none) ("rendered", none) ""
        (fun _ => some (WriteErr.other "disk full")) = ("rendered", none)) := by
  refine ⟨?_, ?_, ?_, ?_, ?_, ?_, ?_, ?_, ?_⟩
  · exact (getManifestForChartPath_spec _ _ _ _ _).1 "pre-rendered" rfl (by decide)
  · exact (getManifestForChartPath_spec _ _ _ _ _).2.1 "" "stat failed" rfl
  · exact (getManifestForChartPath_spec _ _ _ _ _).2.2.1 "cached" rfl rfl (by decide)
  · exact (getManifestForChartPath_spec _ _ _ _ _).2.2.2.1 "" "read failed" rfl rfl
  · exact (getManifestForChartPath_spec _ _ _ _ _).2.2.2.2.1 "" "render failed" rfl rfl rfl
  · exact (getManifestForChartPath_spec _ _ _ _ _).2.2.2.2.2.1 "rendered" rfl rfl rfl
      (by decide) rfl
  · exact (getManifestForChartPath_spec _ _ _ _ _).2.2.2.2.2.2.1 "rendered" "disk full"
      rfl rfl rfl (by decide) rfl
  · exact (getManifestForChartPath_spec _ _ _ _ _).2.2.2.2.2.2.2.1 "rendered" rfl rfl rfl
      (by decide) rfl
  · exact (getManifestForChartPath_spec _ _ _ _ _).2.2.2.2.2.2.2.2 "rendered" rfl rfl rfl rfl

end ManifestOps

namespace Util

/-- If some condition of the list matches (type `Ready`, given reason), the
write-back loop leaves the new condition in the resulting list. -/
theorem mem_replaceFirstCond_of_found (reason : String) (newCond : ManifestCondition) :
    ∀ (conds : List ManifestCondition) (c : ManifestCondition),
    getReadyConditionForComponent conds reason = some c →
    newCond ∈ replaceFirstCond conds reason newCond := by
  intro conds
  induction conds with
  | nil =>
    intro c hc
    simp [getReadyConditionForComponent] at hc
  | cons head tail ih =>
    intro c hc
    by_cases hmatch : (head.conditionType = "Ready" && head.reason = reason) = true
    · simp [replaceFirstCond, hmatch]
    · rw [getReadyConditionForComponent, if_neg hmatch] at hc
      -- the head does not match, so the witness lives in the tail
      have := ih c hc
      simp only [replaceFirstCond, if_neg hmatch]
      exact List.mem_cons_of_mem head this

/-- If no condition matches, the write-back loop over the list extended by a
matching fresh condition rewrites exactly that appended entry. -/
theorem replaceFirstCond_append_of_none (reason : String)
    (fresh newCond : ManifestCondition)
    (hfresh : (fresh.conditionType = "Ready" && fresh.reason = reason) = true) :
    ∀ conds : List ManifestCondition,
    getReadyConditionForComponent conds reason = none →
    replaceFirstCond (conds ++ [fresh]) reason newCond = conds ++ [newCond] := by
  intro conds
  induction conds with
  | nil =>
    intro _
    simp [replaceFirstCond, hfresh]
  | cons head tail ih =>
    intro hnone
    rw [getReadyConditionForComponent] at hnone
    have hhead : ¬(head.conditionType = "Ready" && head.reason = reason) = true := by
      intro habs
      rw [if_pos habs] at hnone
      cases hnone
    rw [if_neg hhead] at hnone
    simp only [List.cons_append, replaceFirstCond, if_neg hhead]
    exact congrArg (fun l => head :: l) (ih hnone)

/-- After `addReadyConditionForItem`, the conditions list holds an entry of
type `Ready` whose reason is the install item's chart name, carrying the
given status and message. -/
theorem addReadyConditionForItem_mem (conds : List ManifestCondition)
    (installItem : InstallItem) (conditionStatus message : String) :
    ∃ c ∈ addReadyConditionForItem conds installItem conditionStatus message,
      c.conditionType = "Ready" ∧ c.reason = installItem.chartName
        ∧ c.status = conditionStatus ∧ c.message = message := by
  unfold addReadyConditionForItem
  rcases hfind : getReadyConditionForComponent conds installItem.chartName with _ | c
  · simp only [hfind]
    refine ⟨{ conditionType := "Ready", status := conditionStatus, message := message,
              reason := installItem.chartName,
              installInfo :=
                if installItem.clientConfig ≠ "" ∨ installItem.overrides ≠ ""
                then installItem
                else { chartName := "", clientConfig := "", overrides := "" } },
            ?_, rfl, rfl, rfl, rfl⟩
    rw [replaceFirstCond_append_of_none installItem.chartName _ _ (by simp) conds hfind]
    exact List.mem_append_right conds (List.mem_singleton.mpr rfl)
  · have hc : (c.conditionType = "Ready" && c.reason = installItem.chartName) = true := by
      induction conds with
      | nil => simp [getReadyConditionForComponent] at hfind
      | cons head tail ih =>
        rw [getReadyConditionForComponent] at hfind
        by_cases hm : (head.conditionType = "Ready" && head.reason = installItem.chartName)
            = true
        · rw [if_pos hm] at hfind
          cases hfind
          exact hm
        · rw [if_neg hm] at hfind
          exact ih hfind
    simp only [Bool.and_eq_true, decide_eq_true_eq] at hc
    simp only [hfind]
    exact ⟨_, mem_replaceFirstCond_of_found installItem.chartName _ conds c hfind,
      hc.1, hc.2, rfl, rfl⟩

/-- C10 counterexample: a Helm-chart install named `nginx` with chart name
`nginx-ingress`. `createHelmChartInfo` (through `parseInstallations`) sets
the job's chart name to `nginx/nginx-ingress`; the response carries that
chart name (`HandleCharts` copies `deployInfo.ChartName`), and the Ready
condition written for it has reason `nginx/nginx-ingress` — not the install
name `nginx`, contradicting the claim for the Helm variant. -/
theorem helm_condition_reason_counterexample :
    (Prepare.parseInstallations
        { name := "m", nspace := "default", labels := [], remote := false,
          installs := [⟨"nginx", "raw"⟩], configSpec := ⟨"", "", "", ""⟩ }
        (fun install => Prepare.createHelmChartInfo
          (Except.ok ⟨"https://helm.nginx.com/stable", "nginx-ingress"⟩) install)
        (fun _ => Except.ok ([], []))).map
      (fun jobs => jobs.map (fun job => job.chartInfo.map (fun ci => ci.chartName)))
      = Except.ok [some "nginx/nginx-ingress"]
    ∧ (AddReadyConditionForResponses
        [{ ready := true, err := none, chartName := "nginx/nginx-ingress",
           clientConfig := "", overrides := "" }] []).map (fun c => c.reason)
      = ["nginx/nginx-ingress"]
    ∧ ("nginx/nginx-ingress" : String) ≠ "nginx" := by
  refine ⟨rfl, rfl, ?_⟩
  decide

/-- C10 amended: the per-chart Ready condition written for an install
response has reason equal to the response's chart name; that chart name
equals the install's declared name for the OCI and Kustomize source
variants, but for Helm-chart installs it is
`<install name>/<helm chart name>`. -/
theorem condition_reason_is_chart_name :
    (∀ (response : InstallResponse) (conds : List ManifestCondition),
      ∃ c ∈ AddReadyConditionForResponses [response] conds,
        c.conditionType = "Ready" ∧ c.reason = response.chartName)
    ∧ (∀ (install : InstallEntry) (helmSpec : Prepare.HelmChartSpec)
        (decodeHelm : Except GoErrMsg Prepare.HelmChartSpec),
      decodeHelm = Except.ok helmSpec →
      (Prepare.createHelmChartInfo decodeHelm install).map (fun ci => ci.chartName)
        = Except.ok (install.name ++ "/" ++ helmSpec.chartName))
    ∧ (∀ (install : InstallEntry) (kustomizeSpec : Prepare.KustomizeSpec)
        (decodeKustomize : Except GoErrMsg Prepare.KustomizeSpec),
      decodeKustomize = Except.ok kustomizeSpec →
      (Prepare.createKustomizeChartInfo decodeKustomize install).map (fun ci => ci.chartName)
        = Except.ok install.name)
    ∧ (∀ (install : InstallEntry) (imageSpec : ImageSpec) (chartPath : String)
        (decodeImage : Except GoErrMsg ImageSpec)
        (getOciChartPath : ImageSpec → Except GoErrMsg String),
      decodeImage = Except.ok imageSpec →
      getOciChartPath imageSpec = Except.ok chartPath →
      (Prepare.createOciChartInfo decodeImage getOciChartPath install).map
          (fun ci => ci.chartName)
        = Except.ok install.name) := by
  refine ⟨?_, ?_, ?_, ?_⟩
  · intro response conds
    have hsingle : AddReadyConditionForResponses [response] conds =
        addReadyConditionForItem conds
          { chartName := response.chartName, clientConfig := response.clientConfig,
            overrides := response.overrides }
          (if response.err.isSome then "False"
           else if !response.ready then "Unknown" else "True")
          (if response.err.isSome then "installation error"
           else if !response.ready then "installation processing"
           else "installation successful") := by
      simp [AddReadyConditionForResponses, AddReadyConditionForObjects]
    rw [hsingle]
    obtain ⟨c, hmem, htype, hreason, _, _⟩ := addReadyConditionForItem_mem conds
      { chartName := response.chartName, clientConfig := response.clientConfig,
        overrides := response.overrides } _ _
    exact ⟨c, hmem, htype, hreason⟩
  · intro install helmSpec decodeHelm hdec
    simp [Prepare.createHelmChartInfo, hdec, Except.map]
  · intro install kustomizeSpec decodeKustomize hdec
    simp [Prepare.createKustomizeChartInfo, hdec, Except.map]
  · intro install imageSpec chartPath decodeImage getOciChartPath hdec hpath
    simp [Prepare.createOciChartInfo, hdec, hpath, Except.map]

/-- Witness for C10-amended: the four conjuncts at concrete responses,
specs and decoders. -/
theorem condition_reason_is_chart_name_witness :
    (∃ c ∈ AddReadyConditionForResponses
        [⟨true, none, "nginx/nginx-ingress", "", ""⟩] [],
      c.conditionType = "Ready" ∧ c.reason = "nginx/nginx-ingress")
    ∧ ((Prepare.createHelmChartInfo
        (Except.ok ⟨"https://helm.nginx.com/stable", "nginx-ingress"⟩)
        ⟨"nginx", "raw"⟩).map (fun ci => ci.chartName)
      = Except.ok ("nginx" ++ "/" ++ "nginx-ingress"))
    ∧ ((Prepare.createKustomizeChartInfo (Except.ok ⟨"./kustomize", ""⟩)
        ⟨"kust", "raw"⟩).map (fun ci => ci.chartName) = Except.ok "kust")
    ∧ ((Prepare.createOciChartInfo (Except.ok ⟨"repo", "img", "v1", "oci-ref"⟩)
        (fun _ => Except.ok "/cache/img") ⟨"oci", "raw"⟩).map (fun ci => ci.chartName)
      = Except.ok "oci") :=
  ⟨condition_reason_is_chart_name.1 ⟨true, none, "nginx/nginx-ingress", "", ""⟩ [],
   condition_reason_is_chart_name.2.1 ⟨"nginx", "raw"⟩
      ⟨"https://helm.nginx.com/stable", "nginx-ingress"⟩ _ rfl,
   condition_reason_is_chart_name.2.2.1 ⟨"kust", "raw"⟩ ⟨"./kustomize", ""⟩ _ rfl,
   condition_reason_is_chart_name.2.2.2 ⟨"oci", "raw"⟩ ⟨"repo", "img", "v1", "oci-ref"⟩
      "/cache/img" _ (fun _ => Except.ok "/cache/img") rfl rfl⟩

end Util

namespace Diff

/-- `strings.Split` never returns an empty list. -/
theorem splitChar_ne_nil (c : Char) : ∀ s : List Char, splitChar c s ≠ [] := by
  intro s
  induction s with
  | nil =>
    simp [splitChar]
  | cons x xs ih =>
    rw [splitChar]
    by_cases hx : x = c
    · simp [hx]
    · simp only [if_neg hx]
      rcases hsp : splitChar c xs with _ | ⟨h, t⟩
      · exact absurd hsp ih
      · simp

/-- Splitting around an explicit separator splits the two sides
independently. -/
theorem splitChar_append (c : Char) (b : List Char) :
    ∀ a : List Char, splitChar c (a ++ c :: b) = splitChar c a ++ splitChar c b := by
  intro a
  induction a with
  | nil =>
    simp [splitChar]
  | cons x xs ih =>
    by_cases hx : x = c
    · simp only [List.cons_append, splitChar, if_pos hx, List.append_eq, ih]
    · simp only [List.cons_append, splitChar, if_neg hx, List.append_eq, ih]
      rcases hsp : splitChar c xs with _ | ⟨h, t⟩
      · exact absurd hsp (splitChar_ne_nil c xs)
      · simp

/-- Chunks produced by `splitChar` never contain the separator. -/
theorem splitChar_no_sep (c : Char) :
    ∀ s : List Char, ∀ t ∈ splitChar c s, c ∉ t := by
  intro s
  induction s with
  | nil =>
    intro t ht
    rw [splitChar, List.mem_singleton] at ht
    simp [ht]
  | cons x xs ih =>
    intro t ht
    rw [splitChar] at ht
    by_cases hx : x = c
    · rw [if_pos hx] at ht
      rcases List.mem_cons.mp ht with h | h
      · simp [h]
      · exact ih t h
    · rw [if_neg hx] at ht
      rcases hsp : splitChar c xs with _ | ⟨h, rest⟩
      · exact absurd hsp (splitChar_ne_nil c xs)
      · rw [hsp] at ht
        rcases List.mem_cons.mp ht with hth | hth
        · intro hc
          rw [hth] at hc
          rcases List.mem_cons.mp hc with hcc | hcc
          · exact hx hcc.symm
          · exact ih h (by rw [hsp]; exact List.mem_cons_self h rest) hcc
        · exact ih t (by rw [hsp]; exact List.mem_cons_of_mem h hth)

/-- A separator-free chunk splits to the singleton of itself. -/
theorem splitChar_of_no_sep (c : Char) :
    ∀ s : List Char, c ∉ s → splitChar c s = [s] := by
  intro s
  induction s with
  | nil =>
    intro _
    simp [splitChar]
  | cons x xs ih =>
    intro hc
    have hx : ¬x = c := fun h => hc (by rw [h]; exact List.mem_cons_self c xs)
    have hxs : c ∉ xs := fun h => hc (List.mem_cons_of_mem x h)
    rw [splitChar, if_neg hx, ih hxs]

/-- The clean stack processes an appended segment list in two passes. -/
theorem cleanCore_append (rooted : Bool) (ys : List Seg) :
    ∀ (xs : List Seg) (acc : List Seg),
    cleanCore rooted (xs ++ ys) acc = cleanCore rooted ys (cleanCore rooted xs acc) := by
  intro xs
  induction xs with
  | nil =>
    intro acc
    simp [cleanCore]
  | cons s rest ih =>
    intro acc
    by_cases hskip : s = [] ∨ s = ['.']
    · simp only [List.cons_append, cleanCore, if_pos hskip, List.append_eq, ih]
    · by_cases hdd : s = ['.', '.']
      · simp only [List.cons_append, cleanCore, if_neg hskip, if_pos hdd, List.append_eq]
        rcases acc with _ | ⟨a, tail⟩
        · cases rooted <;> simp [ih]
        · by_cases ha : a = ['.', '.'] <;> simp [ha, ih]
      · simp only [List.cons_append, cleanCore, if_neg hskip, if_neg hdd,
          List.append_eq, ih]

/-- On segments free of `..`, the clean stack is just the reversed filter of
the non-empty, non-`.` segments pushed onto the accumulator. -/
theorem cleanCore_no_dotdot (rooted : Bool) :
    ∀ (segs : List Seg) (acc : List Seg), (∀ s ∈ segs, s ≠ ['.', '.']) →
    cleanCore rooted segs acc =
      (segs.filter (fun s => s ≠ [] ∧ s ≠ ['.'])).reverse ++ acc := by
  intro segs
  induction segs with
  | nil =>
    intro acc _
    simp [cleanCore]
  | cons s rest ih =>
    intro acc hno
    have hs : s ≠ ['.', '.'] := hno s (List.mem_cons_self s rest)
    have hrest : ∀ t ∈ rest, t ≠ ['.', '.'] :=
      fun t ht => hno t (List.mem_cons_of_mem s ht)
    by_cases hskip : s = [] ∨ s = ['.']
    · simp only [cleanCore]
      rw [if_pos hskip, ih acc hrest]
      rcases hskip with h | h <;> simp [h]
    · simp only [cleanCore]
      rw [if_neg hskip, if_neg hs, ih (s :: acc) hrest]
      push_neg at hskip
      simp [List.filter_cons, hskip.1, hskip.2]

/-- Every element of the clean stack is non-empty, is not `.`, and is free of
the separator, provided the input segments are separator-free and the
accumulator already satisfies this. -/
theorem cleanCore_stack_prop :
    ∀ (rooted : Bool) (segs : List Seg) (acc : List Seg),
    (∀ s ∈ segs, ('/' : Char) ∉ s) →
    (∀ t ∈ acc, t ≠ [] ∧ t ≠ ['.'] ∧ ('/' : Char) ∉ t) →
    ∀ t ∈ cleanCore rooted segs acc, t ≠ [] ∧ t ≠ ['.'] ∧ ('/' : Char) ∉ t := by
  intro rooted segs
  induction segs with
  | nil =>
    intro acc _ hacc
    simpa [cleanCore] using hacc
  | cons s rest ih =>
    intro acc hsegs hacc
    have hs : ('/' : Char) ∉ s := hsegs s (List.mem_cons_self s rest)
    have hrest : ∀ t ∈ rest, ('/' : Char) ∉ t :=
      fun t ht => hsegs t (List.mem_cons_of_mem s ht)
    by_cases hskip : s = [] ∨ s = ['.']
    · simp only [cleanCore]
      rw [if_pos hskip]
      exact ih acc hrest hacc
    · by_cases hdd : s = ['.', '.']
      · subst hdd
        rcases acc with _ | ⟨a, tail⟩
        · cases rooted
          · have hgoal : cleanCore false (['.', '.'] :: rest) [] =
                cleanCore false rest [['.', '.']] := by
              simp [cleanCore]
            rw [hgoal]
            refine ih [['.', '.']] hrest ?_
            intro t ht
            rw [List.mem_singleton] at ht
            subst ht
            exact ⟨by simp, by simp, by simp⟩
          · have hgoal : cleanCore true (['.', '.'] :: rest) [] =
                cleanCore true rest [] := by
              simp [cleanCore]
            rw [hgoal]
            exact ih [] hrest (by simp)
        · by_cases ha : a = ['.', '.']
          · subst ha
            have hgoal : cleanCore rooted (['.', '.'] :: rest) (['.', '.'] :: tail) =
                cleanCore rooted rest (['.', '.'] :: ['.', '.'] :: tail) := by
              simp [cleanCore]
            rw [hgoal]
            refine ih (['.', '.'] :: ['.', '.'] :: tail) hrest ?_
            intro t ht
            rcases List.mem_cons.mp ht with hth | hth
            · subst hth
              exact ⟨by simp, by simp, by simp⟩
            · exact hacc t hth
          · have hgoal : cleanCore rooted (['.', '.'] :: rest) (a :: tail) =
                cleanCore rooted rest tail := by
              simp [cleanCore, ha]
            rw [hgoal]
            exact ih tail hrest (fun t ht => hacc t (List.mem_cons_of_mem a ht))
      · simp only [cleanCore]
        rw [if_neg hskip, if_neg hdd]
        refine ih (s :: acc) hrest ?_
        intro t ht
        rcases List.mem_cons.mp ht with hth | hth
        · push_neg at hskip
          subst hth
          exact ⟨hskip.1, hskip.2, hs⟩
        · exact hacc t hth

/-- The rendered path of a component list headed by a non-empty component
starts with that component's first character. -/
theorem interSeg_cons_head (c x : Char) (tail : List Char) (rest : List Seg) :
    (interSeg c ((x :: tail) :: rest)).head? = some x := by
  cases rest <;> simp [interSeg]

/-- Splitting a rendered non-empty, separator-free component list recovers
the components. -/
theorem splitChar_interSeg (c : Char) :
    ∀ comps : List Seg, comps ≠ [] → (∀ s ∈ comps, c ∉ s) →
    splitChar c (interSeg c comps) = comps := by
  intro comps
  induction comps with
  | nil =>
    intro h _
    exact absurd rfl h
  | cons s rest ih =>
    intro _ hfree
    rcases rest with _ | ⟨r, t⟩
    · exact splitChar_of_no_sep c s (hfree s (List.mem_singleton.mpr rfl))
    · have hs : c ∉ s := hfree s (List.mem_cons_self s (r :: t))
      have hrest : ∀ u ∈ r :: t, c ∉ u := fun u hu => hfree u (List.mem_cons_of_mem s hu)
      have : interSeg c (s :: r :: t) = s ++ c :: interSeg c (r :: t) := by
        simp [interSeg]
      rw [this, splitChar_append, splitChar_of_no_sep c s hs, ih (by simp) hrest]
      simp

/-- Components that are non-empty, distinct from `.`, and separator-free are
exactly recovered by `pathComponents` after rendering. -/
theorem pathComponents_renderPath (rooted : Bool) (comps : List Seg)
    (hprops : ∀ s ∈ comps, s ≠ [] ∧ s ≠ ['.'] ∧ ('/' : Char) ∉ s) :
    pathComponents (renderPath rooted comps) = comps := by
  have hfree : ∀ s ∈ comps, ('/' : Char) ∉ s := fun s hs => (hprops s hs).2.2
  have hfilter : comps.filter (fun s => s ≠ [] ∧ s ≠ ['.']) = comps := by
    rw [List.filter_eq_self]
    intro s hs
    simp [(hprops s hs).1, (hprops s hs).2.1]
  cases rooted with
  | true =>
    rcases hcomps : comps with _ | ⟨s, rest⟩
    · simp [renderPath, pathComponents, interSeg, splitChar]
    · subst hcomps
      rw [renderPath, if_pos rfl, pathComponents, splitChar, if_pos rfl,
        splitChar_interSeg '/' (s :: rest) (by simp) hfree]
      rw [List.filter_cons_of_neg (by simp)]
      exact hfilter
  | false =>
    rcases hcomps : comps with _ | ⟨s, rest⟩
    · simp [renderPath, pathComponents, splitChar]
    · subst hcomps
      rw [renderPath, if_neg (by simp), if_neg (by simp), pathComponents,
        splitChar_interSeg '/' (s :: rest) (by simp) hfree]
      exact hfilter

/-- A rendered path is rooted exactly when rendered as rooted (components
being non-empty and separator-free). -/
theorem isRooted_renderPath (rooted : Bool) (comps : List Seg)
    (hprops : ∀ s ∈ comps, s ≠ [] ∧ ('/' : Char) ∉ s) :
    isRooted (renderPath rooted comps) = rooted := by
  cases rooted with
  | true =>
    simp [renderPath, isRooted]
  | false =>
    rcases comps with _ | ⟨s, rest⟩
    · simp [renderPath, isRooted]
    · rcases hs : s with _ | ⟨x, tail⟩
      · exact absurd hs (hprops s (List.mem_cons_self s rest)).1
      · have hx : ¬x = '/' := by
          intro habs
          refine (hprops s (List.mem_cons_self s rest)).2 ?_
          rw [hs, habs]
          exact List.mem_cons_self _ _
        rw [renderPath, if_neg (by simp), if_neg (by simp), isRooted,
          interSeg_cons_head]
        simp [hx]

/-- A rendered path is never empty when its components are non-empty. -/
theorem renderPath_ne_nil (rooted : Bool) (comps : List Seg)
    (hne : ∀ s ∈ comps, s ≠ []) : renderPath rooted comps ≠ [] := by
  cases rooted with
  | true => simp [renderPath]
  | false =>
    rcases comps with _ | ⟨s, rest⟩
    · simp [renderPath]
    · rcases hs : s with _ | ⟨x, tail⟩
      · exact absurd hs (hne s (List.mem_cons_self s rest))
      · rw [renderPath, if_neg (by simp)]
        subst hs
        cases rest <;> simp [interSeg]

/-- `path.Clean` of a relative, `..`-free path renders exactly its filtered
components. -/
theorem goPathClean_relative_no_dotdot (destL : List Char)
    (hdd : ['.', '.'] ∉ splitChar '/' destL) (habs : isRooted destL = false) :
    goPathClean destL =
      renderPath false ((splitChar '/' destL).filter (fun s => s ≠ [] ∧ s ≠ ['.'])) := by
  by_cases hnil : destL = []
  · subst hnil
    rfl
  · rw [goPathClean, if_neg hnil, habs,
      cleanCore_no_dotdot false (splitChar '/' destL) []
        (fun s hs h => hdd (h ▸ hs))]
    simp

/-- The cleaned join of a root with a cleaned relative, `..`-free destination:
its components are the cleaned root components followed by the destination's
filtered components (which contain no `..`), and it is rooted exactly when
the root is. This is the no-escape property of `CleanFilePathJoin`. -/
theorem joinClean_components (rootL destL : List Char)
    (hdd : ['.', '.'] ∉ splitChar '/' destL) (habs : isRooted destL = false) :
    pathComponents (goFilepathJoin rootL (goPathClean destL)) =
      rootComponents rootL ++ (splitChar '/' destL).filter (fun s => s ≠ [] ∧ s ≠ ['.'])
    ∧ isRooted (goFilepathJoin rootL (goPathClean destL)) = isRooted rootL := by
  have hdestP : ∀ s ∈ (splitChar '/' destL).filter (fun s => s ≠ [] ∧ s ≠ ['.']),
      s ≠ [] ∧ s ≠ ['.'] ∧ ('/' : Char) ∉ s := by
    intro s hs
    obtain ⟨hmem, hpred⟩ := List.mem_filter.mp hs
    simp only [decide_eq_true_eq] at hpred
    exact ⟨hpred.1, hpred.2, splitChar_no_sep '/' destL s hmem⟩
  have hdestDD : ['.', '.'] ∉ (splitChar '/' destL).filter (fun s => s ≠ [] ∧ s ≠ ['.']) :=
    fun h => hdd (List.mem_filter.mp h).1
  have hclean := goPathClean_relative_no_dotdot destL hdd habs
  rw [hclean]
  set destComps := (splitChar '/' destL).filter (fun s => s ≠ [] ∧ s ≠ ['.']) with hdc
  have hfid : destComps.filter (fun s => s ≠ [] ∧ s ≠ ['.']) = destComps :=
    List.filter_eq_self.mpr
      (fun s hs => by simp [(hdestP s hs).1, (hdestP s hs).2.1])
  have hstackP : ∀ t ∈ rootComponents rootL, t ≠ [] ∧ t ≠ ['.'] ∧ ('/' : Char) ∉ t := by
    intro t ht
    rw [rootComponents, List.mem_reverse] at ht
    exact cleanCore_stack_prop (isRooted rootL) (splitChar '/' rootL) []
      (splitChar_no_sep '/' rootL) (by simp) t ht
  by_cases hroot : rootL = []
  · subst hroot
    have hne : renderPath false destComps ≠ [] :=
      renderPath_ne_nil false destComps (fun s hs => (hdestP s hs).1)
    rw [goFilepathJoin, if_neg (by simp), if_pos (by simpa using hne)]
    rcases hcomps : destComps with _ | ⟨s, rest⟩
    · constructor <;> rfl
    · rw [← hcomps]
      have hren : renderPath false destComps = interSeg '/' destComps := by
        rw [renderPath, if_neg (by simp), if_neg (by rw [hcomps]; simp)]
      have hsplit : splitChar '/' (renderPath false destComps) = destComps := by
        rw [hren]
        exact splitChar_interSeg '/' destComps (by rw [hcomps]; simp)
          (fun u hu => (hdestP u hu).2.2)
      have hisr : isRooted (renderPath false destComps) = false :=
        isRooted_renderPath false destComps
          (fun u hu => ⟨(hdestP u hu).1, (hdestP u hu).2.2⟩)
      rw [goPathClean, if_neg hne, hisr, hsplit,
        cleanCore_no_dotdot false destComps [] (fun u hu h => hdestDD (h ▸ hu))]
      simp only [List.append_nil, List.reverse_reverse]
      rw [hfid]
      constructor
      · rw [pathComponents_renderPath false destComps hdestP]
        rfl
      · rw [isRooted_renderPath false destComps
          (fun u hu => ⟨(hdestP u hu).1, (hdestP u hu).2.2⟩)]
        rfl
  · rw [goFilepathJoin, if_pos (by simpa using hroot)]
    have hinne : rootL ++ '/' :: renderPath false destComps ≠ [] := by
      rcases rootL with _ | ⟨y, ys⟩
      · exact absurd rfl hroot
      · simp
    have hhead : isRooted (rootL ++ '/' :: renderPath false destComps) = isRooted rootL := by
      rcases rootL with _ | ⟨y, ys⟩
      · exact absurd rfl hroot
      · simp [isRooted]
    rw [goPathClean, if_neg hinne, hhead, splitChar_append, cleanCore_append]
    rcases hcomps : destComps with _ | ⟨s, rest⟩
    · have hdsplit : splitChar '/' (renderPath false ([] : List Seg)) = [['.']] := rfl
      have hskipdot : cleanCore (isRooted rootL) [['.']]
          (cleanCore (isRooted rootL) (splitChar '/' rootL) []) =
          cleanCore (isRooted rootL) (splitChar '/' rootL) [] := by
        simp [cleanCore]
      rw [hdsplit, hskipdot]
      constructor
      · rw [← rootComponents, pathComponents_renderPath (isRooted rootL) _ hstackP]
        simp
      · exact isRooted_renderPath (isRooted rootL) _
          (fun u hu => ⟨(hstackP u hu).1, (hstackP u hu).2.2⟩)
    · rw [← hcomps]
      have hren : renderPath false destComps = interSeg '/' destComps := by
        rw [renderPath, if_neg (by simp), if_neg (by rw [hcomps]; simp)]
      have hdsplit : splitChar '/' (renderPath false destComps) = destComps := by
        rw [hren]
        exact splitChar_interSeg '/' destComps (by rw [hcomps]; simp)
          (fun u hu => (hdestP u hu).2.2)
      rw [hdsplit, cleanCore_no_dotdot (isRooted rootL) destComps _
        (fun u hu h => hdestDD (h ▸ hu)), hfid]
      have hallP : ∀ t ∈ (destComps.reverse ++
          cleanCore (isRooted rootL) (splitChar '/' rootL) []).reverse,
          t ≠ [] ∧ t ≠ ['.'] ∧ ('/' : Char) ∉ t := by
        intro t ht
        rw [List.reverse_append, List.reverse_reverse] at ht
        rcases List.mem_append.mp ht with h | h
        · rw [← rootComponents] at h
          exact hstackP t h
        · exact hdestP t h
      constructor
      · rw [pathComponents_renderPath _ _ hallP]
        rw [List.reverse_append, List.reverse_reverse, rootComponents]
      · exact isRooted_renderPath _ _
          (fun u hu => ⟨(hallP u hu).1, (hallP u hu).2.2⟩)

/-- C7: the tar-extraction path cleaner errors exactly when the destination
contains `:`, contains a `..` segment after separator normalization, or is
absolute after normalization; otherwise it returns the cleaned join of root
and normalized destination, whose components are the cleaned root components
followed by `..`-free descending components — so the result never escapes
the root — and which is absolute only when the root is. -/
theorem cleanFilePathJoin_spec (root dest : String) :
    ((∃ e, CleanFilePathJoin root dest = Except.error e) ↔
      (dest.toList.contains ':' = true
        ∨ (splitChar '/' (normalizeSeps dest.toList)).contains ['.', '.'] = true
        ∨ isRooted (normalizeSeps dest.toList) = true))
    ∧ (∀ p, CleanFilePathJoin root dest = Except.ok p →
        p.toList = goFilepathJoin root.toList (goPathClean (normalizeSeps dest.toList))
        ∧ pathComponents p.toList =
            rootComponents root.toList ++
              (splitChar '/' (normalizeSeps dest.toList)).filter
                (fun s => s ≠ [] ∧ s ≠ ['.'])
        ∧ ['.', '.'] ∉ (splitChar '/' (normalizeSeps dest.toList)).filter
              (fun s => s ≠ [] ∧ s ≠ ['.'])
        ∧ isRooted p.toList = isRooted root.toList) := by
  by_cases h1 : dest.toList.contains ':' = true
  · constructor
    · constructor
      · intro _
        exact Or.inl h1
      · intro _
        exact ⟨"path contains ':', which is illegal", by rw [CleanFilePathJoin, if_pos h1]⟩
    · intro p hp
      rw [CleanFilePathJoin, if_pos h1] at hp
      cases hp
  · by_cases h2 : (splitChar '/' (normalizeSeps dest.toList)).contains ['.', '.'] = true
    · constructor
      · constructor
        · intro _
          exact Or.inr (Or.inl h2)
        · intro _
          exact ⟨"path contains '..', which is illegal",
            by rw [CleanFilePathJoin, if_neg h1, if_pos h2]⟩
      · intro p hp
        rw [CleanFilePathJoin, if_neg h1, if_pos h2] at hp
        cases hp
    · by_cases h3 : isRooted (normalizeSeps dest.toList) = true
      · constructor
        · constructor
          · intro _
            exact Or.inr (Or.inr h3)
          · intro _
            exact ⟨"path is absolute, which is illegal",
              by rw [CleanFilePathJoin, if_neg h1, if_neg h2, if_pos h3]⟩
        · intro p hp
          rw [CleanFilePathJoin, if_neg h1, if_neg h2, if_pos h3] at hp
          cases hp
      · have hdd : ['.', '.'] ∉ splitChar '/' (normalizeSeps dest.toList) := by
          intro hmem
          exact h2 (by simpa [List.contains] using hmem)
        have habs : isRooted (normalizeSeps dest.toList) = false :=
          Bool.eq_false_iff.mpr h3
        have hjc := joinClean_components root.toList (normalizeSeps dest.toList) hdd habs
        constructor
        · constructor
          · intro ⟨e, he⟩
            rw [CleanFilePathJoin, if_neg h1, if_neg h2, if_neg h3] at he
            cases he
          · intro hcond
            rcases hcond with h | h | h
            · exact absurd h h1
            · exact absurd h h2
            · exact absurd h h3
        · intro p hp
          rw [CleanFilePathJoin, if_neg h1, if_neg h2, if_neg h3] at hp
          have hplist : p.toList =
              goFilepathJoin root.toList (goPathClean (normalizeSeps dest.toList)) := by
            cases hp
            rfl
          refine ⟨hplist, ?_, ?_, ?_⟩
          · rw [hplist]
            exact hjc.1
          · intro hmem
            exact hdd (List.mem_filter.mp hmem).1
          · rw [hplist]
            exact hjc.2

/-- Witness for C7: a concrete root and a destination with a backslash
separator, a redundant `.` segment, and a double slash. -/
theorem cleanFilePathJoin_spec_witness :
    (∃ p, CleanFilePathJoin "charts" "sub\\dir//./manifest.yaml" = Except.ok p
      ∧ p = "charts/sub/dir/manifest.yaml"
      ∧ pathComponents p.toList =
          rootComponents "charts".toList ++
            (splitChar '/' (normalizeSeps "sub\\dir//./manifest.yaml".toList)).filter
              (fun s => s ≠ [] ∧ s ≠ ['.'])
      ∧ isRooted p.toList = isRooted "charts".toList)
    ∧ (∃ e, CleanFilePathJoin "charts" "../escape" = Except.error e) := by
  constructor
  · refine ⟨"charts/sub/dir/manifest.yaml", rfl, rfl, ?_, ?_⟩
    · exact ((cleanFilePathJoin_spec "charts" "sub\\dir//./manifest.yaml").2
        "charts/sub/dir/manifest.yaml" rfl).2.1
    · exact ((cleanFilePathJoin_spec "charts" "sub\\dir//./manifest.yaml").2
        "charts/sub/dir/manifest.yaml" rfl).2.2.2
  · exact (cleanFilePathJoin_spec "charts" "../escape").1.mpr
      (Or.inr (Or.inl (by decide)))

end Diff

end ModuleInstaller
